import Mathlib

/-!
Verification of the configuration graph loader of the alloy repository.

The loader subsystem itself (package internal/runtime/internal/controller)
is exercised by its test file loader_test.go; the loader's implementation
is not among the provided sources, so the definitions below are modelled
from the specification (spec.md sections 3 through 4.7) and checked
against the behaviours asserted by the test file.  Definitions whose doc
comment starts with Modelled from the spec are such models.
-/

namespace Alloy

/-- Source position of a block: source name, line and column. -/
structure Pos where
  sourceName : String
  line : Nat
  col : Nat
deriving DecidableEq, Repr

/-- Diagnostic severity levels (spec section 6.4). -/
inductive Severity where
  | warn
  | error
  | critical
deriving DecidableEq, Repr

/-- A severity-tagged, positioned message accumulated during an apply. -/
structure Diagnostic where
  severity : Severity
  message : String
  pos : Pos
deriving DecidableEq, Repr

/-- An error-severity diagnostic is present (spec section 6.2: any entry with
error severity indicates failure). -/
def hasErrors (ds : List Diagnostic) : Bool :=
  ds.any (fun d => d.severity == Severity.error || d.severity == Severity.critical)

/-- Feature stability levels, with the sentinel undefined (spec section 4.4). -/
inductive Stability where
  | undefined
  | experimental
  | publicPreview
  | generallyAvailable
deriving DecidableEq, Repr

/-- The printed name of a stability level as it appears in diagnostics. -/
def Stability.levelName : Stability → String
  | .undefined => "<invalid_stability_level>"
  | .experimental => "experimental"
  | .publicPreview => "public-preview"
  | .generallyAvailable => "generally-available"

/-- Rank in the total order experimental < public-preview < generally-available. -/
def Stability.rank : Stability → Nat
  | .undefined => 0
  | .experimental => 1
  | .publicPreview => 2
  | .generallyAvailable => 3

/-- Expressions appearing on the right-hand side of attributes.  Argument and
element sequences are encoded with seqCons and seqNil.  A dotted identifier
path is a ref; the head of a call is itself a dotted identifier path. -/
inductive Expr where
  | lit (value : String)
  | num (value : Int)
  | ref (path : List String)
  | binop (left right : Expr)
  | call (fn : List String) (args : Expr)
  | arr (elems : Expr)
  | seqNil
  | seqCons (head tail : Expr)
deriving DecidableEq, Repr

/-- A block body: a sequence of attribute assignments and nested blocks
(spec section 3).  A nested block carries its own name, optional label and
body. -/
inductive Body where
  | nil
  | attrib (name : String) (value : Expr) (rest : Body)
  | child (name : List String) (label : Option String) (inner : Body) (rest : Body)
deriving DecidableEq, Repr

/-- A top-level block statement: dotted name, optional label, body and start
position (spec section 3). -/
structure Block where
  name : List String
  label : Option String
  body : Body
  pos : Pos
deriving DecidableEq, Repr

/-- All dotted identifier paths occurring in an expression. -/
def Expr.paths : Expr → List (List String)
  | .lit _ => []
  | .num _ => []
  | .ref p => [p]
  | .binop a b => a.paths ++ b.paths
  | .call f args => f :: args.paths
  | .arr es => es.paths
  | .seqNil => []
  | .seqCons a b => a.paths ++ b.paths

/-- All dotted identifier paths occurring in a body, attributes and nested
blocks included, in source order. -/
def Body.paths : Body → List (List String)
  | .nil => []
  | .attrib _ e rest => e.paths ++ rest.paths
  | .child _ _ inner rest => inner.paths ++ rest.paths

/-- Paths of a block are the paths of its body. -/
def Block.paths (b : Block) : List (List String) :=
  b.body.paths

/-- The dotted rendering of an identifier path. -/
def dotted (p : List String) : String :=
  String.intercalate "." p

/-- Modelled from the spec: registry entry resolving a component name to its
declared stability and community flag (spec section 4.2); the factory itself
is an external collaborator and is not modelled. -/
structure RegEntry where
  name : List String
  stability : Stability
  community : Bool
deriving DecidableEq, Repr

/-- Modelled from the spec: a service definition (name, declared stability);
the config type is decoded by a collaborator and is not modelled. -/
structure ServiceDef where
  name : String
  stability : Stability
deriving DecidableEq, Repr

/-- Modelled from the spec: the loader options the claims depend on
(spec section 6.2): minimum stability, the community-components flag, the
registry and the list of services. -/
structure LoaderOptions where
  minStability : Stability
  enableCommunityComps : Bool
  registry : List RegEntry
  services : List ServiceDef
deriving DecidableEq, Repr

/-- The kind of a node, a closed variant (spec section 3). -/
inductive NodeKind where
  | component (entry : RegEntry)
  | config
  | service (sd : ServiceDef)
  | declareBlock
  | foreachBlock
deriving DecidableEq, Repr

/-- A classified node descriptor: fully qualified id, kind and raw block. -/
structure Descriptor where
  id : String
  kind : NodeKind
  block : Block
deriving DecidableEq, Repr

/-- Modelled from the spec: a graph node.  The runtime handle is the opaque
value supplied by the collaborator on first creation; it models runtime
identity.  dataFlowEdgesTo is the list of data-flow consumer ids
(spec sections 3 and 4.5). -/
structure Node where
  id : String
  kind : NodeKind
  block : Block
  handle : Nat
  dataFlowEdgesTo : List String
deriving DecidableEq, Repr

/-- The published directed graph: nodes and dependency edges (from, to). -/
structure Graph where
  nodes : List Node
  edges : List (String × String)
deriving DecidableEq, Repr

/-- The empty graph: no nodes, no edges. -/
def Graph.empty : Graph := ⟨[], []⟩

/-- Lookup of a node by fully qualified id. -/
def Graph.getByID (g : Graph) (i : String) : Option Node :=
  g.nodes.find? (fun n => n.id == i)

/-- Modelled from the spec: the loader: its options, the currently published
graph and the next fresh runtime handle (handles model collaborator-owned
runtime identity). -/
structure Loader where
  opts : LoaderOptions
  graph : Graph
  nextHandle : Nat
deriving DecidableEq, Repr

/-- The input of one apply (spec section 4.6). -/
structure ApplyOptions where
  componentBlocks : List Block
  configBlocks : List Block
  declareBlocks : List Block
deriving DecidableEq, Repr

/-- Rendering of a source position inside diagnostics. -/
def posString (p : Pos) : String :=
  p.sourceName ++ ":" ++ toString p.line ++ ":" ++ toString p.col

/-- Verbatim duplicate-id diagnostic text (spec section 4.3). -/
def dupMessage (id : String) (prior : Pos) : String :=
  "block " ++ id ++ " already declared at " ++ posString prior

/-- Verbatim unknown-component diagnostic text (spec section 4.2). -/
def unknownComponentMessage (name : String) : String :=
  "cannot find the definition of component name \"" ++ name ++ "\""

/-- Verbatim missing-label diagnostic text (spec section 4.3). -/
def mustHaveLabelMessage (name : String) : String :=
  "component \"" ++ name ++ "\" must have a label"

/-- Verbatim community-component diagnostic text (spec section 4.4 rule 3). -/
def communityMessage (name : String) : String :=
  "the component \"" ++ name ++ "\" is a community component. Use the " ++
  "--feature.community-components.enabled command-line flag to enable community components"

/-- Verbatim undefined-minimum-stability diagnostic text (spec section 4.4
rule 1). -/
def undefinedMinMessage (kindWord name : String) (s : Stability) : String :=
  "stability levels must be defined: got \"" ++ s.levelName ++ "\" as stability of " ++
  kindWord ++ " \"" ++ name ++ "\" and <invalid_stability_level> as the minimum stability level"

/-- Verbatim below-minimum-stability diagnostic text (spec section 4.4
rule 2), with the hint appended for experimental. -/
def belowMinMessage (kindWord name : String) (s minS : Stability) : String :=
  kindWord ++ " \"" ++ name ++ "\" is at stability level \"" ++ s.levelName ++
  "\", which is below the minimum allowed stability level \"" ++ minS.levelName ++ "\"" ++
  (if s == Stability.experimental then
    ". Use --stability.level command-line flag to enable \"experimental\"" else "")

/-- Modelled from the spec: reference-resolution error text (spec section 4.5
gives no verbatim form, only that a reference-resolution error is emitted). -/
def unresolvedMessage (p : List String) : String :=
  "unable to resolve reference \"" ++ dotted p ++ "\""

/-- Registry lookup by dotted component name (spec section 4.2). -/
def lookupRegistry (reg : List RegEntry) (name : List String) : Option RegEntry :=
  reg.find? (fun e => e.name == name)

/-- Service lookup by name (spec section 4.2: services live in a separate
namespace supplied by collaborators). -/
def lookupService (svcs : List ServiceDef) (name : List String) : Option ServiceDef :=
  svcs.find? (fun s => name == [s.name])

/-- Modelled from the spec: classification of a block routed to the component
namespace (spec section 4.3): services first, then registry lookup; a
component block requires a non-empty label; an unknown name is reported
against the component namespace. -/
def classifyComponent (opts : LoaderOptions) (b : Block) : Except Diagnostic Descriptor :=
  match lookupService opts.services b.name with
  | some sd => Except.ok ⟨dotted b.name, NodeKind.service sd, b⟩
  | none =>
    match lookupRegistry opts.registry b.name with
    | some e =>
      match b.label with
      | some lbl =>
        if lbl == "" then
          Except.error ⟨Severity.error, mustHaveLabelMessage (dotted b.name), b.pos⟩
        else
          Except.ok ⟨dotted b.name ++ "." ++ lbl, NodeKind.component e, b⟩
      | none => Except.error ⟨Severity.error, mustHaveLabelMessage (dotted b.name), b.pos⟩
    | none => Except.error ⟨Severity.error, unknownComponentMessage (dotted b.name), b.pos⟩

/-- Modelled from the spec: classification of a block routed to the config
namespace (spec sections 3, 4.3): the singleton config blocks logging and
tracing, and the foreach block (id foreach.label, gated as experimental). -/
def classifyConfig (b : Block) : Except Diagnostic Descriptor :=
  if b.name == ["foreach"] then
    match b.label with
    | some lbl =>
      if lbl == "" then
        Except.error ⟨Severity.error, "foreach block must have a label", b.pos⟩
      else Except.ok ⟨"foreach." ++ lbl, NodeKind.foreachBlock, b⟩
    | none => Except.error ⟨Severity.error, "foreach block must have a label", b.pos⟩
  else if b.name == ["logging"] || b.name == ["tracing"] then
    Except.ok ⟨dotted b.name, NodeKind.config, b⟩
  else
    Except.error ⟨Severity.error, "unrecognized config block \"" ++ dotted b.name ++ "\"", b.pos⟩

/-- Modelled from the spec: classification of a declare block, id
declare.name (spec section 3). -/
def classifyDeclare (b : Block) : Except Diagnostic Descriptor :=
  match b.label with
  | some lbl =>
    if lbl == "" then
      Except.error ⟨Severity.error, "declare block must have a label", b.pos⟩
    else Except.ok ⟨"declare." ++ lbl, NodeKind.declareBlock, b⟩
  | none => Except.error ⟨Severity.error, "declare block must have a label", b.pos⟩

/-- The default (injected) singleton config block instance. -/
def defaultConfigBlock (name : String) : Block :=
  ⟨[name], none, Body.nil, ⟨"<default>", 0, 0⟩⟩

/-- Modelled from the spec: logging and tracing are implicitly present; when
the caller omits one, the loader injects a default instance
(spec section 4.7). -/
def injectDefaults (cfgs : List Block) : List Block :=
  cfgs
    ++ (if cfgs.any (fun b => b.name == ["logging"]) then [] else [defaultConfigBlock "logging"])
    ++ (if cfgs.any (fun b => b.name == ["tracing"]) then [] else [defaultConfigBlock "tracing"])

/-- The classification results of one apply in order: component blocks, then
config blocks with defaults injected, then declare blocks. -/
def classifyResults (opts : LoaderOptions) (input : ApplyOptions) :
    List (Except Diagnostic Descriptor) :=
  input.componentBlocks.map (classifyComponent opts)
    ++ (injectDefaults input.configBlocks).map classifyConfig
    ++ input.declareBlocks.map classifyDeclare

/-- Successfully classified descriptors, in order. -/
def classifiedDescs (opts : LoaderOptions) (input : ApplyOptions) : List Descriptor :=
  (classifyResults opts input).filterMap Except.toOption

/-- Classification error diagnostics. -/
def classifyDiags (opts : LoaderOptions) (input : ApplyOptions) : List Diagnostic :=
  (classifyResults opts input).filterMap fun r =>
    match r with
    | Except.error d => some d
    | Except.ok _ => none

/-- Modelled from the spec: symbol-table construction.  Insertion of an id
already present fails; the failure carries the source position of the prior
declaration and the duplicate is not inserted (spec sections 3, 4.3). -/
def buildTableAux (tbl : List Descriptor) : List Descriptor → List Descriptor × List Diagnostic
  | [] => (tbl, [])
  | d :: ds =>
    match tbl.find? (fun d0 => d0.id == d.id) with
    | some d0 =>
      ((buildTableAux tbl ds).1,
        ⟨Severity.error, dupMessage d.id d0.block.pos, d.block.pos⟩ :: (buildTableAux tbl ds).2)
    | none => buildTableAux (tbl ++ [d]) ds

/-- The symbol table and duplicate diagnostics of a descriptor stream. -/
def buildTable (ds : List Descriptor) : List Descriptor × List Diagnostic :=
  buildTableAux [] ds

/-- The symbol table of one apply. -/
def tableDescs (opts : LoaderOptions) (input : ApplyOptions) : List Descriptor :=
  (buildTable (classifiedDescs opts input)).1

/-- Duplicate-declaration diagnostics of one apply. -/
def dupDiags (opts : LoaderOptions) (input : ApplyOptions) : List Diagnostic :=
  (buildTable (classifiedDescs opts input)).2

/-- Modelled from the spec: the stability gate for one declared stability
(spec section 4.4 rules 1 and 2). -/
def stabilityDiags (opts : LoaderOptions) (kindWord name : String) (s : Stability)
    (p : Pos) : List Diagnostic :=
  if opts.minStability == Stability.undefined then
    if s == Stability.undefined then []
    else [⟨Severity.error, undefinedMinMessage kindWord name s, p⟩]
  else if s.rank < opts.minStability.rank then
    [⟨Severity.error, belowMinMessage kindWord name s opts.minStability, p⟩]
  else []

/-- Modelled from the spec: the gate applied to one node: community
components require the flag and, when it is enabled, bypass the stability
gate entirely; component, foreach and service nodes are stability gated;
singleton config blocks and declare blocks carry no declared stability
(spec section 4.4). -/
def gateNode (opts : LoaderOptions) (d : Descriptor) : List Diagnostic :=
  match d.kind with
  | NodeKind.component e =>
    if e.community then
      if opts.enableCommunityComps then []
      else [⟨Severity.error, communityMessage (dotted d.block.name), d.block.pos⟩]
    else stabilityDiags opts "component" (dotted d.block.name) e.stability d.block.pos
  | NodeKind.foreachBlock =>
    stabilityDiags opts "config block" (dotted d.block.name) Stability.experimental d.block.pos
  | NodeKind.service sd => stabilityDiags opts "block" sd.name sd.stability d.block.pos
  | NodeKind.config => []
  | NodeKind.declareBlock => []

/-- Gate diagnostics of one apply. -/
def gateDiags (opts : LoaderOptions) (input : ApplyOptions) : List Diagnostic :=
  (tableDescs opts input).flatMap (gateNode opts)

/-- The symbol table after gated nodes are dropped (spec section 7: stability
and community violations drop the node from the new graph). -/
def keptDescs (opts : LoaderOptions) (input : ApplyOptions) : List Descriptor :=
  (tableDescs opts input).filter (fun d => (gateNode opts d).isEmpty)

/-- The registered node ids of one apply. -/
def applyIds (opts : LoaderOptions) (input : ApplyOptions) : List String :=
  (keptDescs opts input).map Descriptor.id

/-- Modelled from the spec: the known namespace roots.  An identifier path is
inspected for references only when it begins with a known namespace prefix
(spec section 4.5); the roots are the first segments of registered component
names, the service names, the config-block names and declare. -/
def knownRoots (opts : LoaderOptions) : List String :=
  opts.registry.map (fun e => e.name.headD "")
    ++ opts.services.map ServiceDef.name
    ++ ["logging", "tracing", "declare", "foreach"]

/-- Whether a path begins with a known namespace root. -/
def isCandidate (roots : List String) (p : List String) : Bool :=
  match p.head? with
  | some r => roots.contains r
  | none => false

/-- The identifier paths of a block that are inspected for references. -/
def candidatePaths (roots : List String) (b : Block) : List (List String) :=
  b.paths.filter (isCandidate roots)

/-- Longest-prefix resolution, trying prefix length k first and shrinking
(spec section 4.5: the longest prefix of the path that matches a node id in
the symbol table defines the edge). -/
def resolveFrom (ids : List String) (p : List String) : Nat → Option String
  | 0 => none
  | Nat.succ k =>
    if ids.contains (dotted (p.take (Nat.succ k))) then some (dotted (p.take (Nat.succ k)))
    else resolveFrom ids p k

/-- Resolution of an identifier path against the symbol-table ids. -/
def resolveRef (ids : List String) (p : List String) : Option String :=
  resolveFrom ids p p.length

/-- Dependency edges contributed by one node: one edge per candidate path
that resolves (spec section 4.5). -/
def descEdges (ids roots : List String) (d : Descriptor) : List (String × String) :=
  (candidatePaths roots d.block).filterMap fun p =>
    match resolveRef ids p with
    | some t => some (d.id, t)
    | none => none

/-- Reference-resolution error diagnostics contributed by one node: one per
candidate path whose longest matching prefix is not a registered id
(spec section 4.5). -/
def descRefDiags (ids roots : List String) (d : Descriptor) : List Diagnostic :=
  (candidatePaths roots d.block).filterMap fun p =>
    match resolveRef ids p with
    | some _ => none
    | none => some ⟨Severity.error, unresolvedMessage p, d.block.pos⟩

/-- Modelled from the spec: the data-flow consumer list of a target node: the
source node id is appended once per occurrence, in analyzer-encounter order,
and the list is rebuilt from scratch on each apply (spec section 4.5). -/
def consumers (ids roots : List String) (ds : List Descriptor) (target : String) : List String :=
  ds.flatMap fun src =>
    (candidatePaths roots src.block).filterMap fun p =>
      if resolveRef ids p == some target then some src.id else none

/-- Reference-resolution diagnostics of one apply. -/
def applyRefDiags (opts : LoaderOptions) (input : ApplyOptions) : List Diagnostic :=
  (keptDescs opts input).flatMap
    (descRefDiags (applyIds opts input) (knownRoots opts))

/-- The dependency edges of one apply, first occurrences kept. -/
def applyEdges (opts : LoaderOptions) (input : ApplyOptions) : List (String × String) :=
  ((keptDescs opts input).flatMap
    (descEdges (applyIds opts input) (knownRoots opts))).dedup

/-- Successor ids of a node id under an edge list. -/
def successors (es : List (String × String)) (i : String) : List String :=
  es.filterMap fun e => if e.1 == i then some e.2 else none

/-- Bounded reachability along edges. -/
def reachWithin (es : List (String × String)) : Nat → String → String → Bool
  | 0, _, _ => false
  | Nat.succ k, a, b => (successors es a).any fun c => c == b || reachWithin es k c b

/-- Cycle detection: some node reaches itself (spec section 4.5). -/
def hasCycle (ids : List String) (es : List (String × String)) : Bool :=
  ids.any fun i => reachWithin es ids.length i i

/-- Cycle diagnostics of one apply. -/
def cycleDiags (opts : LoaderOptions) (input : ApplyOptions) : List Diagnostic :=
  if hasCycle (applyIds opts input) (applyEdges opts input) then
    [⟨Severity.error, "cycle detected in the dependency graph", ⟨"<graph>", 0, 0⟩⟩]
  else []

/-- All diagnostics of one apply, in pipeline order. -/
def applyAllDiags (opts : LoaderOptions) (input : ApplyOptions) : List Diagnostic :=
  classifyDiags opts input ++ dupDiags opts input ++ gateDiags opts input
    ++ applyRefDiags opts input ++ cycleDiags opts input

/-- Modelled from the spec: instantiation of one descriptor (spec section 4.6
step 3): when the id exists in the current graph with an identical raw body,
the existing runtime handle is copied; otherwise a fresh handle is taken. -/
def mkNode (prev : Graph) (h : Nat) (d : Descriptor) : Node × Nat :=
  match prev.getByID d.id with
  | some old =>
    if old.block.body = d.block.body then
      (⟨d.id, d.kind, d.block, old.handle, []⟩, h)
    else (⟨d.id, d.kind, d.block, h, []⟩, h + 1)
  | none => (⟨d.id, d.kind, d.block, h, []⟩, h + 1)

/-- Instantiation of a descriptor list, threading the fresh-handle counter. -/
def instantiate (prev : Graph) : Nat → List Descriptor → List Node × Nat
  | h, [] => ([], h)
  | h, d :: ds =>
    ((mkNode prev h d).1 :: (instantiate prev (mkNode prev h d).2 ds).1,
     (instantiate prev (mkNode prev h d).2 ds).2)

/-- The nodes a successful apply publishes: instantiated nodes with their
data-flow consumer lists filled in. -/
def applyNodes (prev : Graph) (h0 : Nat) (opts : LoaderOptions) (input : ApplyOptions) :
    List Node :=
  (instantiate prev h0 (keptDescs opts input)).1.map fun n =>
    { n with dataFlowEdgesTo :=
        consumers (applyIds opts input) (knownRoots opts) (keptDescs opts input) n.id }

/-- Modelled from the spec: one apply (spec section 4.6).  On success the new
graph is published atomically; on failure the previous graph remains
current, except that a reference-resolution failure replaces the published
graph by the empty graph (spec sections 4.5, 4.6 step 6 and section 7). -/
def applyLoad (l : Loader) (input : ApplyOptions) : Loader × List Diagnostic :=
  let diags := applyAllDiags l.opts input
  if hasErrors diags then
    if (applyRefDiags l.opts input).isEmpty then (l, diags)
    else ({ l with graph := Graph.empty }, diags)
  else
    ({ opts := l.opts,
       graph := ⟨applyNodes l.graph l.nextHandle l.opts input, applyEdges l.opts input⟩,
       nextHandle := (instantiate l.graph l.nextHandle (keptDescs l.opts input)).2 },
     diags)

/-! Concrete fixtures: the registry and inputs exercised by the loader
tests (loader_test.go).  The testcomponents registry entries carry the
stabilities the test assertions exhibit: tick, passthrough and summation are
public-preview non-community; community is a community component. -/

/-- The registry of test components. -/
def testRegistry : List RegEntry :=
  [⟨["testcomponents", "tick"], Stability.publicPreview, false⟩,
   ⟨["testcomponents", "passthrough"], Stability.publicPreview, false⟩,
   ⟨["testcomponents", "summation"], Stability.publicPreview, false⟩,
   ⟨["testcomponents", "community"], Stability.experimental, true⟩]

/-- Loader options with a chosen minimum stability, community disabled. -/
def optionsWithStability (s : Stability) : LoaderOptions :=
  ⟨s, false, testRegistry, []⟩

/-- The default test options: minimum stability public-preview. -/
def testOptions : LoaderOptions :=
  optionsWithStability Stability.publicPreview

/-- A loader that has not published anything yet. -/
def freshLoader (opts : LoaderOptions) : Loader :=
  ⟨opts, Graph.empty, 0⟩

/-- A body with a single attribute. -/
def body1 (n : String) (e : Expr) : Body :=
  Body.attrib n e Body.nil

/-- The block testcomponents.tick "ticker" with frequency 1s. -/
def tickTicker : Block :=
  ⟨["testcomponents", "tick"], some "ticker", body1 "frequency" (Expr.lit "1s"),
   ⟨"TestLoader", 2, 4⟩⟩

/-- The block testcomponents.passthrough "static". -/
def passStatic : Block :=
  ⟨["testcomponents", "passthrough"], some "static",
   body1 "input" (Expr.lit "hello, world!"), ⟨"TestLoader", 6, 4⟩⟩

/-- The block testcomponents.passthrough "ticker" referencing the tick. -/
def passTicker : Block :=
  ⟨["testcomponents", "passthrough"], some "ticker",
   body1 "input" (Expr.ref ["testcomponents", "tick", "ticker", "tick_time"]),
   ⟨"TestLoader", 10, 4⟩⟩

/-- The block testcomponents.passthrough "forwarded" referencing the
passthrough ticker. -/
def passForwarded : Block :=
  ⟨["testcomponents", "passthrough"], some "forwarded",
   body1 "input" (Expr.ref ["testcomponents", "passthrough", "ticker", "output"]),
   ⟨"TestLoader", 14, 4⟩⟩

/-- The logging config block of the test config. -/
def loggingBlock : Block :=
  ⟨["logging"], none, Body.attrib "level" (Expr.lit "debug")
    (body1 "format" (Expr.lit "logfmt")), ⟨"TestLoader", 2, 4⟩⟩

/-- The tracing config block of the test config. -/
def tracingBlock : Block :=
  ⟨["tracing"], none, body1 "sampling_fraction" (Expr.num 1), ⟨"TestLoader", 6, 4⟩⟩

/-- The tracing config block with an updated value (reload test). -/
def tracingBlock2 : Block :=
  ⟨["tracing"], none, body1 "sampling_fraction" (Expr.num 2), ⟨"TestLoader", 2, 4⟩⟩

/-- The four-component happy-path apply with the test config. -/
def mainInput : ApplyOptions :=
  ⟨[tickTicker, passStatic, passTicker, passForwarded], [loggingBlock, tracingBlock], []⟩

/-- The same components with only the updated tracing block. -/
def mainInputNewConfig : ApplyOptions :=
  ⟨[tickTicker, passStatic, passTicker, passForwarded], [tracingBlock2], []⟩

/-- The start file of the copy-and-delete test: a ticker to be kept and a
component absent from the next apply. -/
def removeMeInput : ApplyOptions :=
  ⟨[tickTicker,
    ⟨["testcomponents", "tick"], some "remove_me", body1 "frequency" (Expr.lit "1m"),
     ⟨"TestLoader", 7, 4⟩⟩],
   [loggingBlock, tracingBlock], []⟩

/-- The data-flow test input: one, pass (two references to one), sum. -/
def dataFlowInput : ApplyOptions :=
  ⟨[⟨["testcomponents", "passthrough"], some "one", body1 "input" (Expr.lit "1"),
     ⟨"TestLoader", 2, 4⟩⟩,
    ⟨["testcomponents", "passthrough"], some "pass",
     Body.attrib "input" (Expr.ref ["testcomponents", "passthrough", "one", "output"])
       (body1 "lag" (Expr.binop
         (Expr.ref ["testcomponents", "passthrough", "one", "output"]) (Expr.lit "s"))),
     ⟨"TestLoader", 6, 4⟩⟩,
    ⟨["testcomponents", "summation"], some "sum",
     body1 "input" (Expr.ref ["testcomponents", "passthrough", "pass", "output"]),
     ⟨"TestLoader", 11, 4⟩⟩],
   [], []⟩

/-- The partial-load test input: a valid reference next to a reference whose
longest matching prefix is not a registered id. -/
def invalidRefInput : ApplyOptions :=
  ⟨[tickTicker,
    ⟨["testcomponents", "passthrough"], some "valid",
     body1 "input" (Expr.ref ["testcomponents", "tick", "ticker", "tick_time"]),
     ⟨"TestLoader", 6, 4⟩⟩,
    ⟨["testcomponents", "passthrough"], some "invalid",
     body1 "input" (Expr.ref ["testcomponents", "tick", "doesnotexist", "tick_time"]),
     ⟨"TestLoader", 10, 4⟩⟩],
   [], []⟩

/-- The stdlib-call test input: frequency computed by string.join. -/
def stdlibInput : ApplyOptions :=
  ⟨[⟨["testcomponents", "tick"], some "default",
     body1 "frequency" (Expr.call ["string", "join"]
       (Expr.seqCons
         (Expr.arr (Expr.seqCons (Expr.lit "1") (Expr.seqCons (Expr.lit "s") Expr.seqNil)))
         (Expr.seqCons (Expr.lit "") Expr.seqNil))),
     ⟨"TestLoader", 2, 4⟩⟩],
   [], []⟩

/-- The community component test input. -/
def communityInput : ApplyOptions :=
  ⟨[⟨["testcomponents", "community"], some "com", Body.nil, ⟨"TestLoader", 2, 4⟩⟩], [], []⟩

/-- A logging config block at a given source position with an empty body. -/
def loggingAt (src : String) (ln : Nat) : Block :=
  ⟨["logging"], none, Body.nil, ⟨src, ln, 4⟩⟩

/-- The duplicated logging config input of the redefinition test. -/
def dupConfigInput : ApplyOptions :=
  ⟨[], [loggingAt "TestLoader/Config_block_redefined" 2,
        loggingAt "TestLoader/Config_block_redefined" 3], []⟩

/-- A tick "ticker" block at a given source position. -/
def tickAt (src : String) (ln : Nat) : Block :=
  ⟨["testcomponents", "tick"], some "ticker", body1 "frequency" (Expr.lit "1s"), ⟨src, ln, 4⟩⟩

/-- The duplicated component input of the redefinition test. -/
def dupComponentInput : ApplyOptions :=
  ⟨[tickAt "TestLoader/Component_block_redefined" 2,
    tickAt "TestLoader/Component_block_redefined" 5], [], []⟩

/-- A declare "a" block at a given source position. -/
def declareAt (src : String) (ln : Nat) : Block :=
  ⟨["declare"], some "a", Body.nil, ⟨src, ln, 4⟩⟩

/-- The duplicated declare input of the redefinition test. -/
def dupDeclareInput : ApplyOptions :=
  ⟨[], [], [declareAt "TestLoader/Declare_block_redefined" 2,
            declareAt "TestLoader/Declare_block_redefined" 3]⟩

/-- The foreach block of the stability test: collection, var and a template
child block. -/
def foreachBlockA : Block :=
  ⟨["foreach"], some "a",
   Body.attrib "collection" (Expr.arr (Expr.seqCons (Expr.num 5) Expr.seqNil))
     (Body.attrib "var" (Expr.lit "item")
       (Body.child ["template"] none Body.nil Body.nil)),
   ⟨"TestLoader", 2, 4⟩⟩

/-- The foreach apply of the stability test: the block arrives among the
config blocks. -/
def foreachInput : ApplyOptions :=
  ⟨[], [foreachBlockA], []⟩

/-- A single logging config block, used as a successful apply before a
reload that introduces a duplicate. -/
def singleLoggingInput : ApplyOptions :=
  ⟨[], [loggingAt "TestLoader" 2], []⟩

/-- Following the spec's words, for comparison with the loader's computed
consumer lists: the number of occurrences of references from the node with
id src to the node with id target, counted over the source node's candidate
identifier paths (spec section 4.5: one entry per occurrence). -/
def specConsumerCount (opts : LoaderOptions) (input : ApplyOptions)
    (src target : String) : Nat :=
  match (keptDescs opts input).find? (fun d => d.id == src) with
  | some d =>
    ((candidatePaths (knownRoots opts) d.block).filter
      (fun p => resolveRef (applyIds opts input) p == some target)).length
  | none => 0

/-! Helper lemmas about the pipeline. -/

theorem hasErrors_append (a b : List Diagnostic) :
    hasErrors (a ++ b) = (hasErrors a || hasErrors b) := by
  simp [hasErrors, List.any_append]

theorem hasErrors_of_error_mem {ds : List Diagnostic} {d : Diagnostic}
    (hm : d ∈ ds) (hs : d.severity = Severity.error) : hasErrors ds = true := by
  simp only [hasErrors, List.any_eq_true]
  exact ⟨d, hm, by simp [hs]⟩

theorem nil_of_no_errors {P all : List Diagnostic}
    (hsub : ∀ d ∈ P, d ∈ all) (hsev : ∀ d ∈ P, d.severity = Severity.error)
    (h : hasErrors all = false) : P = [] := by
  cases P with
  | nil => rfl
  | cons d t =>
    have hd : d ∈ all := hsub d (by simp)
    have hv : d.severity = Severity.error := hsev d (by simp)
    have := hasErrors_of_error_mem hd hv
    rw [this] at h
    cases h

theorem stabilityDiags_sev {opts : LoaderOptions} {kw nm : String} {s : Stability}
    {p : Pos} {d : Diagnostic} (h : d ∈ stabilityDiags opts kw nm s p) :
    d.severity = Severity.error := by
  unfold stabilityDiags at h
  split at h
  · split at h <;> simp_all
  · split at h <;> simp_all

theorem gateNode_sev {opts : LoaderOptions} {de : Descriptor} {d : Diagnostic}
    (h : d ∈ gateNode opts de) : d.severity = Severity.error := by
  unfold gateNode at h
  split at h
  · rename_i e
    split at h
    · split at h <;> simp_all
    · exact stabilityDiags_sev h
  · exact stabilityDiags_sev h
  · exact stabilityDiags_sev h
  · simp_all
  · simp_all

theorem buildTableAux_sev {tbl : List Descriptor} {ds : List Descriptor} {d : Diagnostic}
    (h : d ∈ (buildTableAux tbl ds).2) : d.severity = Severity.error := by
  induction ds generalizing tbl with
  | nil => simp [buildTableAux] at h
  | cons x xs ih =>
    unfold buildTableAux at h
    split at h
    · simp only [List.mem_cons] at h
      rcases h with h | h
      · subst h; rfl
      · exact ih h
    · exact ih h

theorem descRefDiags_sev {ids roots : List String} {de : Descriptor} {d : Diagnostic}
    (h : d ∈ descRefDiags ids roots de) : d.severity = Severity.error := by
  unfold descRefDiags at h
  rw [List.mem_filterMap] at h
  obtain ⟨p, _, hp⟩ := h
  split at hp
  · cases hp
  · simp only [Option.some.injEq] at hp
    subst hp; rfl

theorem refDiags_sev {opts : LoaderOptions} {input : ApplyOptions} {d : Diagnostic}
    (h : d ∈ applyRefDiags opts input) : d.severity = Severity.error := by
  unfold applyRefDiags at h
  rw [List.mem_flatMap] at h
  obtain ⟨de, _, hd⟩ := h
  exact descRefDiags_sev hd

theorem gateDiags_nil_of_success {opts : LoaderOptions} {input : ApplyOptions}
    (h : hasErrors (applyAllDiags opts input) = false) : gateDiags opts input = [] := by
  refine nil_of_no_errors (fun d hd => ?_) (fun d hd => ?_) h
  · unfold applyAllDiags
    simp only [List.mem_append]
    tauto
  · unfold gateDiags at hd
    rw [List.mem_flatMap] at hd
    obtain ⟨de, _, hde⟩ := hd
    exact gateNode_sev hde

theorem dupDiags_nil_of_success {opts : LoaderOptions} {input : ApplyOptions}
    (h : hasErrors (applyAllDiags opts input) = false) : dupDiags opts input = [] := by
  refine nil_of_no_errors (fun d hd => ?_) (fun d hd => ?_) h
  · unfold applyAllDiags
    simp only [List.mem_append]
    tauto
  · exact buildTableAux_sev hd

theorem refDiags_nil_of_success {opts : LoaderOptions} {input : ApplyOptions}
    (h : hasErrors (applyAllDiags opts input) = false) : applyRefDiags opts input = [] := by
  refine nil_of_no_errors (fun d hd => ?_) (fun d hd => refDiags_sev hd) h
  unfold applyAllDiags
  simp only [List.mem_append]
  tauto

theorem keptDescs_eq_table_of_success {opts : LoaderOptions} {input : ApplyOptions}
    (h : hasErrors (applyAllDiags opts input) = false) :
    keptDescs opts input = tableDescs opts input := by
  unfold keptDescs
  rw [List.filter_eq_self]
  intro d hd
  have hg : gateDiags opts input = [] := gateDiags_nil_of_success h
  unfold gateDiags at hg
  rw [List.flatMap_eq_nil_iff] at hg
  simp [hg d hd]

/-- On success the new graph is published. -/
theorem applyLoad_publish {l : Loader} {input : ApplyOptions}
    (h : hasErrors (applyAllDiags l.opts input) = false) :
    applyLoad l input =
      ({ opts := l.opts,
         graph := ⟨applyNodes l.graph l.nextHandle l.opts input, applyEdges l.opts input⟩,
         nextHandle := (instantiate l.graph l.nextHandle (keptDescs l.opts input)).2 },
       applyAllDiags l.opts input) := by
  simp only [applyLoad]
  simp [h]

theorem applyLoad_diags (l : Loader) (input : ApplyOptions) :
    (applyLoad l input).2 = applyAllDiags l.opts input := by
  simp only [applyLoad]
  split
  · split <;> rfl
  · rfl

theorem applyLoad_opts (l : Loader) (input : ApplyOptions) :
    (applyLoad l input).1.opts = l.opts := by
  simp only [applyLoad]
  split
  · split <;> rfl
  · rfl

theorem buildTableAux_nil_diags {ds : List Descriptor} :
    ∀ {tbl : List Descriptor}, (buildTableAux tbl ds).2 = [] →
      (buildTableAux tbl ds).1 = tbl ++ ds := by
  induction ds with
  | nil => intro tbl _; simp [buildTableAux]
  | cons d rest ih =>
    intro tbl h
    rw [buildTableAux] at h ⊢
    cases hf : tbl.find? (fun d0 => d0.id == d.id) with
    | some d0 =>
      rw [hf] at h
      exact absurd h (List.cons_ne_nil _ _)
    | none =>
      rw [hf] at h
      have h2 : (buildTableAux (tbl ++ [d]) rest).2 = [] := h
      show (buildTableAux (tbl ++ [d]) rest).1 = tbl ++ d :: rest
      rw [ih h2]
      simp

theorem buildTableAux_ids_nodup (ds : List Descriptor) :
    ∀ {tbl : List Descriptor}, (tbl.map Descriptor.id).Nodup →
      (((buildTableAux tbl ds).1).map Descriptor.id).Nodup := by
  induction ds with
  | nil => intro tbl h; simpa [buildTableAux] using h
  | cons d rest ih =>
    intro tbl h
    rw [buildTableAux]
    cases hf : tbl.find? (fun d0 => d0.id == d.id) with
    | some d0 => exact ih h
    | none =>
      apply ih
      rw [List.map_append]
      refine List.Nodup.append h (by simp) ?_
      intro a ha hb
      simp only [List.map_cons, List.map_nil, List.mem_singleton] at hb
      subst hb
      rw [List.find?_eq_none] at hf
      rw [List.mem_map] at ha
      obtain ⟨x, hx, hxa⟩ := ha
      exact hf x hx (by simp [hxa])

theorem applyIds_nodup (opts : LoaderOptions) (input : ApplyOptions) :
    (applyIds opts input).Nodup := by
  have h1 : ((tableDescs opts input).map Descriptor.id).Nodup :=
    buildTableAux_ids_nodup _ (by simp)
  exact List.Nodup.sublist (List.Sublist.map _ (List.filter_sublist _)) h1

theorem buildTableAux_dup_found {ds : List Descriptor} {i : String} {d0 : Descriptor} :
    ∀ {tbl : List Descriptor}, tbl.find? (fun x => x.id == i) = some d0 →
      (∃ d ∈ ds, d.id = i) →
      ∃ p, Diagnostic.mk Severity.error (dupMessage i d0.block.pos) p ∈ (buildTableAux tbl ds).2 := by
  induction ds with
  | nil => intro tbl _ hm; simp at hm
  | cons d rest ih =>
    intro tbl hf hm
    rw [buildTableAux]
    by_cases hd : d.id = i
    · have hfd : tbl.find? (fun d0 => d0.id == d.id) = some d0 := by
        rw [hd]; exact hf
      rw [hfd]
      exact ⟨d.block.pos, by simp [hd]⟩
    · obtain ⟨x, hx, hxi⟩ := hm
      rw [List.mem_cons] at hx
      rcases hx with rfl | hx
      · exact absurd hxi hd
      cases hfd : tbl.find? (fun d0 => d0.id == d.id) with
      | some y =>
        obtain ⟨p, hp⟩ := ih hf ⟨x, hx, hxi⟩
        exact ⟨p, List.mem_cons_of_mem _ hp⟩
      | none =>
        show ∃ p, _ ∈ (buildTableAux (tbl ++ [d]) rest).2
        refine ih ?_ ⟨x, hx, hxi⟩
        rw [List.find?_append, hf]
        rfl

theorem buildTableAux_dup_later {ds : List Descriptor} {i : String} {d0 : Descriptor} :
    ∀ {tbl : List Descriptor}, tbl.find? (fun x => x.id == i) = none →
      ds.find? (fun x => x.id == i) = some d0 →
      2 ≤ ds.countP (fun x => x.id == i) →
      ∃ p, Diagnostic.mk Severity.error (dupMessage i d0.block.pos) p ∈ (buildTableAux tbl ds).2 := by
  induction ds with
  | nil => intro tbl _ hf _; simp at hf
  | cons d rest ih =>
    intro tbl ht hf hc
    by_cases hd : d.id = i
    · have hfd : List.find? (fun x => x.id == i) (d :: rest) = some d := by
        rw [List.find?_cons_of_pos _ (by simp [hd])]
      rw [hfd] at hf
      injection hf with hf0
      subst hf0
      rw [buildTableAux]
      cases hft : tbl.find? (fun x => x.id == d.id) with
      | some y =>
        have : tbl.find? (fun x => x.id == i) = some y := by rw [← hd] at ht ⊢; exact hft
        rw [ht] at this; cases this
      | none =>
        show ∃ p, _ ∈ (buildTableAux (tbl ++ [d]) rest).2
        have hrest : ∃ x ∈ rest, x.id = i := by
          rw [List.countP_cons] at hc
          simp only [hd, beq_self_eq_true, if_true] at hc
          have hpos : 0 < rest.countP (fun x => x.id == i) := by omega
          obtain ⟨a, ha, hai⟩ := List.countP_pos_iff.mp hpos
          exact ⟨a, ha, by simpa using hai⟩
        refine buildTableAux_dup_found ?_ hrest
        rw [List.find?_append, ht]
        simp [hd]
    · have hfr : rest.find? (fun x => x.id == i) = some d0 := by
        rw [List.find?_cons_of_neg _ (by simp [hd])] at hf
        exact hf
      have hcr : 2 ≤ rest.countP (fun x => x.id == i) := by
        rw [List.countP_cons] at hc
        have hb : (d.id == i) = false := by simp [hd]
        rw [hb] at hc
        simpa using hc
      rw [buildTableAux]
      cases hft : tbl.find? (fun x => x.id == d.id) with
      | some y =>
        obtain ⟨p, hp⟩ := ih ht hfr hcr
        exact ⟨p, List.mem_cons_of_mem _ hp⟩
      | none =>
        refine ih ?_ hfr hcr
        rw [List.find?_append, ht]
        rw [List.find?_cons_of_neg _ (by simp [hd]), List.find?_nil]
        rfl

theorem mkNode_id (prev : Graph) (h : Nat) (d : Descriptor) :
    (mkNode prev h d).1.id = d.id := by
  unfold mkNode
  split
  · split <;> rfl
  · rfl

theorem mkNode_block (prev : Graph) (h : Nat) (d : Descriptor) :
    (mkNode prev h d).1.block = d.block := by
  unfold mkNode
  split
  · split <;> rfl
  · rfl

theorem mkNode_handle_reuse {prev : Graph} {d : Descriptor} {old : Node} (h : Nat)
    (ho : prev.getByID d.id = some old) (hb : old.block.body = d.block.body) :
    (mkNode prev h d).1.handle = old.handle := by
  unfold mkNode
  rw [ho]
  simp [hb]

theorem instantiate_ids (prev : Graph) (ds : List Descriptor) :
    ∀ h, (instantiate prev h ds).1.map Node.id = ds.map Descriptor.id := by
  induction ds with
  | nil => intro h; rfl
  | cons d rest ih =>
    intro h
    rw [instantiate]
    simp [mkNode_id, ih]

theorem instantiate_find (prev : Graph) {ds : List Descriptor} {d : Descriptor}
    (hnd : (ds.map Descriptor.id).Nodup) (hm : d ∈ ds) :
    ∀ h, ∃ h0, (instantiate prev h ds).1.find? (fun n => n.id == d.id) =
      some (mkNode prev h0 d).1 := by
  induction ds with
  | nil => cases hm
  | cons x rest ih =>
    intro h
    rw [List.mem_cons] at hm
    rcases hm with rfl | hm
    · refine ⟨h, ?_⟩
      rw [instantiate]
      rw [List.find?_cons_of_pos _ (by simp [mkNode_id])]
    · have hne : x.id ≠ d.id := by
        rw [List.map_cons, List.nodup_cons] at hnd
        intro he
        exact hnd.1 (he ▸ List.mem_map_of_mem Descriptor.id hm)
      obtain ⟨h0, hh⟩ := ih (by rw [List.map_cons, List.nodup_cons] at hnd; exact hnd.2)
        hm (mkNode prev h x).2
      refine ⟨h0, ?_⟩
      rw [instantiate]
      rw [List.find?_cons_of_neg _ (by simp [mkNode_id, hne]), hh]

theorem contains_eq_of_perm {l1 l2 : List String} (h : List.Perm l1 l2) (a : String) :
    l1.contains a = l2.contains a := by
  by_cases hm : a ∈ l1
  · have h1 : l1.contains a = true := by simpa using hm
    have h2 : l2.contains a = true := by simpa using h.mem_iff.mp hm
    rw [h1, h2]
  · have hm2 : a ∉ l2 := fun hx => hm (h.mem_iff.mpr hx)
    have h1 : l1.contains a = false := by simpa using hm
    have h2 : l2.contains a = false := by simpa using hm2
    rw [h1, h2]

theorem resolveFrom_perm {ids1 ids2 : List String} (h : List.Perm ids1 ids2)
    (p : List String) : ∀ k, resolveFrom ids1 p k = resolveFrom ids2 p k := by
  intro k
  induction k with
  | zero => rfl
  | succ k ih => rw [resolveFrom, resolveFrom, contains_eq_of_perm h, ih]

theorem resolveRef_perm {ids1 ids2 : List String} (h : List.Perm ids1 ids2)
    (p : List String) : resolveRef ids1 p = resolveRef ids2 p :=
  resolveFrom_perm h p p.length

theorem resolveFrom_mem {ids p : List String} :
    ∀ {k : Nat} {t : String}, resolveFrom ids p k = some t → t ∈ ids := by
  intro k
  induction k with
  | zero => intro t h; cases h
  | succ k ih =>
    intro t h
    rw [resolveFrom] at h
    split at h
    · rename_i hc
      injection h with h0
      subst h0
      simpa using hc
    · exact ih h

theorem resolveRef_mem {ids p : List String} {t : String}
    (h : resolveRef ids p = some t) : t ∈ ids :=
  resolveFrom_mem h

theorem mem_consumers {ids roots : List String} {ds : List Descriptor} {t x : String}
    (h : x ∈ consumers ids roots ds t) :
    ∃ d ∈ ds, x = d.id ∧ ∃ p ∈ candidatePaths roots d.block, resolveRef ids p = some t := by
  unfold consumers at h
  rw [List.mem_flatMap] at h
  obtain ⟨d, hd, hx⟩ := h
  rw [List.mem_filterMap] at hx
  obtain ⟨p, hp, hif⟩ := hx
  split at hif
  · rename_i hc
    injection hif with h0
    exact ⟨d, hd, h0.symm, p, hp, by simpa using hc⟩
  · cases hif

theorem consumers_intro {ids roots : List String} {ds : List Descriptor} {t : String}
    {d : Descriptor} (hd : d ∈ ds) {p : List String}
    (hp : p ∈ candidatePaths roots d.block) (hr : resolveRef ids p = some t) :
    d.id ∈ consumers ids roots ds t := by
  unfold consumers
  rw [List.mem_flatMap]
  refine ⟨d, hd, ?_⟩
  rw [List.mem_filterMap]
  exact ⟨p, hp, by simp [hr]⟩

theorem count_filterMap_const {α : Type} (l : List α) (c : α → Bool) (a s : String) :
    (l.filterMap (fun p => if c p then some a else none)).count s =
      if a = s then (l.filter c).length else 0 := by
  induction l with
  | nil => simp
  | cons x xs ih =>
    rw [List.filterMap_cons, List.filter_cons]
    by_cases hc : c x
    · simp only [hc, if_true]
      rw [List.count_cons, ih]
      by_cases has : a = s <;> simp [has]
    · simp only [hc, if_false, Bool.false_eq_true]
      rw [ih]

theorem consumers_count {ids roots : List String} {ds : List Descriptor} {t s : String}
    (hnd : (ds.map Descriptor.id).Nodup) :
    (consumers ids roots ds t).count s =
      match ds.find? (fun d => d.id == s) with
      | some d => ((candidatePaths roots d.block).filter
          (fun p => resolveRef ids p == some t)).length
      | none => 0 := by
  induction ds with
  | nil => rfl
  | cons d rest ih =>
    rw [List.map_cons, List.nodup_cons] at hnd
    have hcons : consumers ids roots (d :: rest) t =
        ((candidatePaths roots d.block).filterMap
          (fun p => if resolveRef ids p == some t then some d.id else none))
          ++ consumers ids roots rest t := by
      unfold consumers
      rw [List.flatMap_cons]
    rw [hcons, List.count_append, count_filterMap_const]
    by_cases hd : d.id = s
    · have hz : (consumers ids roots rest t).count s = 0 := by
        rw [List.count_eq_zero]
        intro hmem
        obtain ⟨x, hx, hxs, _⟩ := mem_consumers hmem
        exact hnd.1 (hd ▸ hxs ▸ List.mem_map_of_mem Descriptor.id hx)
      rw [hz, List.find?_cons_of_pos _ (by simp [hd]), if_pos hd]
      simp
    · rw [if_neg hd, List.find?_cons_of_neg _ (by simp [hd]), ih hnd.2]
      simp

theorem applyNodes_ids (prev : Graph) (h0 : Nat) (opts : LoaderOptions)
    (input : ApplyOptions) :
    (applyNodes prev h0 opts input).map Node.id = applyIds opts input := by
  unfold applyNodes
  rw [List.map_map]
  have he : (Node.id ∘ fun n : Node =>
      { n with dataFlowEdgesTo :=
          consumers (applyIds opts input) (knownRoots opts) (keptDescs opts input) n.id })
      = Node.id := by
    funext n
    rfl
  rw [he, instantiate_ids]
  rfl

theorem applyNodes_dataFlow {prev : Graph} {h0 : Nat} {opts : LoaderOptions}
    {input : ApplyOptions} {n : Node} (h : n ∈ applyNodes prev h0 opts input) :
    n.dataFlowEdgesTo =
      consumers (applyIds opts input) (knownRoots opts) (keptDescs opts input) n.id := by
  unfold applyNodes at h
  rw [List.mem_map] at h
  obtain ⟨m, _, rfl⟩ := h
  rfl

theorem applyNodes_find {prev : Graph} {h0 : Nat} {opts : LoaderOptions}
    {input : ApplyOptions} {d : Descriptor} (hm : d ∈ keptDescs opts input) :
    ∃ n, (applyNodes prev h0 opts input).find? (fun x => x.id == d.id) = some n ∧
      n.id = d.id ∧ n.block = d.block ∧
      n.dataFlowEdgesTo =
        consumers (applyIds opts input) (knownRoots opts) (keptDescs opts input) d.id ∧
      ∀ old, prev.getByID d.id = some old → old.block.body = d.block.body →
        n.handle = old.handle := by
  have hnd : ((keptDescs opts input).map Descriptor.id).Nodup := applyIds_nodup opts input
  obtain ⟨hh, hfind⟩ := instantiate_find prev hnd hm h0
  unfold applyNodes
  rw [List.find?_map]
  have hpf : ((fun x : Node => x.id == d.id) ∘ (fun n : Node =>
      { n with dataFlowEdgesTo :=
          consumers (applyIds opts input) (knownRoots opts) (keptDescs opts input) n.id }))
      = (fun n : Node => n.id == d.id) := by
    funext n
    rfl
  rw [hpf, hfind]
  refine ⟨_, rfl, by simp [mkNode_id], by simp [mkNode_block], by simp [mkNode_id], ?_⟩
  intro old ho hb
  simpa using mkNode_handle_reuse hh ho hb

theorem getByID_publish (l : Loader) (input : ApplyOptions)
    (h : hasErrors (applyAllDiags l.opts input) = false) {d : Descriptor}
    (hm : d ∈ keptDescs l.opts input) :
    ∃ n, (applyLoad l input).1.graph.getByID d.id = some n ∧
      n.id = d.id ∧ n.block = d.block ∧
      n.dataFlowEdgesTo =
        consumers (applyIds l.opts input) (knownRoots l.opts) (keptDescs l.opts input) d.id ∧
      ∀ old, l.graph.getByID d.id = some old → old.block.body = d.block.body →
        n.handle = old.handle := by
  rw [applyLoad_publish h]
  exact applyNodes_find hm

theorem getByID_publish_none (l : Loader) (input : ApplyOptions)
    (h : hasErrors (applyAllDiags l.opts input) = false) {i : String}
    (hni : i ∉ applyIds l.opts input) :
    (applyLoad l input).1.graph.getByID i = none := by
  rw [applyLoad_publish h]
  show (applyNodes l.graph l.nextHandle l.opts input).find? (fun n => n.id == i) = none
  rw [List.find?_eq_none]
  intro n hn hni2
  apply hni
  have : n.id ∈ (applyNodes l.graph l.nextHandle l.opts input).map Node.id :=
    List.mem_map_of_mem Node.id hn
  rw [applyNodes_ids] at this
  have he : n.id = i := by simpa using hni2
  exact he ▸ this

theorem mem_applyEdges {opts : LoaderOptions} {input : ApplyOptions} {u v : String}
    (h : (u, v) ∈ applyEdges opts input) :
    ∃ d ∈ keptDescs opts input, u = d.id ∧
      ∃ p ∈ candidatePaths (knownRoots opts) d.block,
        resolveRef (applyIds opts input) p = some v := by
  unfold applyEdges at h
  rw [List.mem_dedup, List.mem_flatMap] at h
  obtain ⟨d, hd, he⟩ := h
  unfold descEdges at he
  rw [List.mem_filterMap] at he
  obtain ⟨p, hp, hmatch⟩ := he
  split at hmatch
  · rename_i t hres
    injection hmatch with h0
    have hu : u = d.id := congrArg Prod.fst h0.symm
    have hv : t = v := congrArg Prod.snd h0
    exact ⟨d, hd, hu, p, hp, hv ▸ hres⟩
  · cases hmatch

theorem buildTableAux_id_mem {ds : List Descriptor} {i : String} :
    ∀ {tbl : List Descriptor}, (∃ d ∈ tbl ++ ds, d.id = i) →
      ∃ d ∈ (buildTableAux tbl ds).1, d.id = i := by
  induction ds with
  | nil =>
    intro tbl h
    simpa [buildTableAux] using h
  | cons d rest ih =>
    intro tbl h
    rw [buildTableAux]
    cases hf : tbl.find? (fun d0 => d0.id == d.id) with
    | some d0 =>
      show ∃ x ∈ (buildTableAux tbl rest).1, x.id = i
      apply ih
      obtain ⟨x, hx, hxi⟩ := h
      simp only [List.mem_append, List.mem_cons] at hx
      rcases hx with hx | hx | hx
      · exact ⟨x, by simp [hx], hxi⟩
      · subst hx
        have hd0 : d0 ∈ tbl := List.mem_of_find?_eq_some hf
        have hd0i : d0.id = x.id := by simpa using List.find?_some hf
        exact ⟨d0, by simp [hd0], hd0i.trans hxi⟩
      · exact ⟨x, by simp [hx], hxi⟩
    | none =>
      show ∃ x ∈ (buildTableAux (tbl ++ [d]) rest).1, x.id = i
      apply ih
      obtain ⟨x, hx, hxi⟩ := h
      refine ⟨x, ?_, hxi⟩
      simp only [List.mem_append, List.mem_cons, List.mem_singleton] at hx ⊢
      tauto

theorem table_eq_classified_of_success {opts : LoaderOptions} {input : ApplyOptions}
    (h : hasErrors (applyAllDiags opts input) = false) :
    tableDescs opts input = classifiedDescs opts input := by
  have hd : dupDiags opts input = [] := dupDiags_nil_of_success h
  have := @buildTableAux_nil_diags (classifiedDescs opts input) [] hd
  simpa [tableDescs, buildTable] using this

theorem classifyConfig_ok {b : Block}
    (h : b.name = ["logging"] ∨ b.name = ["tracing"]) :
    classifyConfig b = Except.ok ⟨dotted b.name, NodeKind.config, b⟩ := by
  unfold classifyConfig
  rcases h with h | h <;> rw [h] <;> rfl

theorem filterMap_toOption_map_ok {α β : Type} {l : List α} {g : α → Except Diagnostic β}
    {f : α → β} (h : ∀ a ∈ l, g a = Except.ok (f a)) :
    (l.map g).filterMap Except.toOption = l.map f := by
  induction l with
  | nil => rfl
  | cons x xs ih =>
    rw [List.map_cons, List.filterMap_cons, h x (by simp), List.map_cons]
    rw [ih (fun a ha => h a (by simp [ha]))]
    rfl

theorem mem_injectDefaults {cs : List Block} {b : Block} (h : b ∈ injectDefaults cs) :
    b ∈ cs ∨ b = defaultConfigBlock "logging" ∨ b = defaultConfigBlock "tracing" := by
  unfold injectDefaults at h
  simp only [List.mem_append] at h
  rcases h with (h | h) | h
  · exact Or.inl h
  · split at h <;> simp_all
  · split at h <;> simp_all

theorem injectDefaults_has_logging (cs : List Block) :
    ∃ b ∈ injectDefaults cs, b.name = ["logging"] := by
  unfold injectDefaults
  cases ha : cs.any (fun b => b.name == ["logging"]) with
  | true =>
    rw [List.any_eq_true] at ha
    obtain ⟨b, hb, hbn⟩ := ha
    exact ⟨b, by simp [hb], by simpa using hbn⟩
  | false =>
    refine ⟨defaultConfigBlock "logging", ?_, rfl⟩
    simp

theorem injectDefaults_has_tracing (cs : List Block) :
    ∃ b ∈ injectDefaults cs, b.name = ["tracing"] := by
  unfold injectDefaults
  cases ha : cs.any (fun b => b.name == ["tracing"]) with
  | true =>
    rw [List.any_eq_true] at ha
    obtain ⟨b, hb, hbn⟩ := ha
    exact ⟨b, by simp [hb], by simpa using hbn⟩
  | false =>
    refine ⟨defaultConfigBlock "tracing", ?_, rfl⟩
    simp

theorem descEdges_perm {ids1 ids2 roots : List String} {d : Descriptor}
    (h : List.Perm ids1 ids2) : descEdges ids1 roots d = descEdges ids2 roots d := by
  unfold descEdges
  apply List.filterMap_congr
  intro p _
  rw [resolveRef_perm h]

theorem classified_config_id_mem (opts : LoaderOptions) {input : ApplyOptions}
    {b : Block} (hb : b ∈ injectDefaults input.configBlocks)
    (hn : b.name = ["logging"] ∨ b.name = ["tracing"]) :
    ∃ d ∈ classifiedDescs opts input, d.id = dotted b.name := by
  refine ⟨⟨dotted b.name, NodeKind.config, b⟩, ?_, rfl⟩
  unfold classifiedDescs
  rw [List.mem_filterMap]
  refine ⟨Except.ok ⟨dotted b.name, NodeKind.config, b⟩, ?_, rfl⟩
  unfold classifyResults
  simp only [List.mem_append]
  refine Or.inl (Or.inr ?_)
  rw [List.mem_map]
  exact ⟨b, hb, classifyConfig_ok hn⟩

theorem applyIds_has_config {opts : LoaderOptions} {input : ApplyOptions}
    (h : hasErrors (applyAllDiags opts input) = false)
    {b : Block} (hb : b ∈ injectDefaults input.configBlocks)
    (hbn : b.name = ["logging"] ∨ b.name = ["tracing"]) :
    dotted b.name ∈ applyIds opts input := by
  obtain ⟨d, hd, hdi⟩ := classified_config_id_mem opts hb hbn
  unfold applyIds
  rw [keptDescs_eq_table_of_success h, table_eq_classified_of_success h]
  exact hdi ▸ List.mem_map_of_mem Descriptor.id hd

/-! The claims. -/

/-- C1: for every apply whose input contains an identifier path whose longest
matching prefix is not a registered node id, the apply fails with a
reference-resolution error and the published graph returned by Graph() is
reset to the empty graph (no nodes, no edges), even when other blocks in the
same input are valid. -/
theorem claim_C1_unresolved_ref_empties_graph (l : Loader) (input : ApplyOptions)
    (h : ∃ d ∈ keptDescs l.opts input, ∃ p ∈ candidatePaths (knownRoots l.opts) d.block,
      resolveRef (applyIds l.opts input) p = none) :
    hasErrors (applyLoad l input).2 = true ∧ (applyLoad l input).1.graph = Graph.empty := by
  obtain ⟨d, hd, p, hp, hres⟩ := h
  have hx : Diagnostic.mk Severity.error (unresolvedMessage p) d.block.pos
      ∈ applyRefDiags l.opts input := by
    unfold applyRefDiags
    rw [List.mem_flatMap]
    refine ⟨d, hd, ?_⟩
    unfold descRefDiags
    rw [List.mem_filterMap]
    exact ⟨p, hp, by rw [hres]⟩
  have hmem : Diagnostic.mk Severity.error (unresolvedMessage p) d.block.pos
      ∈ applyAllDiags l.opts input := by
    unfold applyAllDiags
    simp only [List.mem_append]
    tauto
  have herr : hasErrors (applyAllDiags l.opts input) = true :=
    hasErrors_of_error_mem hmem rfl
  have hne : (applyRefDiags l.opts input).isEmpty = false := by
    cases hre : applyRefDiags l.opts input with
    | nil => rw [hre] at hx; cases hx
    | cons a t => rfl
  constructor
  · rw [applyLoad_diags]
    exact herr
  · simp only [applyLoad]
    simp [herr, hne]

/-- C1 witness: the partial-load input with an invalid reference fails and
empties the published graph. -/
theorem claim_C1_witness :
    (∃ d ∈ keptDescs testOptions invalidRefInput,
      ∃ p ∈ candidatePaths (knownRoots testOptions) d.block,
        resolveRef (applyIds testOptions invalidRefInput) p = none) ∧
    hasErrors (applyLoad (freshLoader testOptions) invalidRefInput).2 = true ∧
    (applyLoad (freshLoader testOptions) invalidRefInput).1.graph = Graph.empty := by
  refine ⟨by decide, ?_⟩
  exact claim_C1_unresolved_ref_empties_graph (freshLoader testOptions) invalidRefInput
    (by decide)

/-- C5: the four-component happy-path apply succeeds and publishes a graph
whose node set is exactly the four component ids plus logging and tracing,
and whose edge set is exactly the two expected dependency edges. -/
theorem claim_C5_new_graph :
    hasErrors (applyLoad (freshLoader testOptions) mainInput).2 = false ∧
    List.Perm ((applyLoad (freshLoader testOptions) mainInput).1.graph.nodes.map Node.id)
      ["testcomponents.tick.ticker", "testcomponents.passthrough.static",
       "testcomponents.passthrough.ticker", "testcomponents.passthrough.forwarded",
       "logging", "tracing"] ∧
    List.Perm ((applyLoad (freshLoader testOptions) mainInput).1.graph.edges)
      [("testcomponents.passthrough.ticker", "testcomponents.tick.ticker"),
       ("testcomponents.passthrough.forwarded", "testcomponents.passthrough.ticker")] := by
  exact ⟨by decide, by decide, by decide⟩

/-- C7: with the community flag disabled, a community component is rejected
with the verbatim community diagnostic; with the flag enabled, the stability
gate is bypassed for the node whatever the minimum stability is, and the
community input loads both under public-preview and under the undefined
sentinel minimum. -/
theorem claim_C7_community_gate :
    (∀ (l : Loader) (input : ApplyOptions) (d : Descriptor) (e : RegEntry),
      l.opts.enableCommunityComps = false →
      d ∈ tableDescs l.opts input → d.kind = NodeKind.component e → e.community = true →
      hasErrors (applyLoad l input).2 = true ∧
      Diagnostic.mk Severity.error
        ("the component \"" ++ dotted d.block.name ++ "\" is a community component. Use the " ++
          "--feature.community-components.enabled command-line flag to enable community components")
        d.block.pos ∈ (applyLoad l input).2) ∧
    (∀ (opts : LoaderOptions) (d : Descriptor) (e : RegEntry),
      opts.enableCommunityComps = true → d.kind = NodeKind.component e → e.community = true →
      gateNode opts d = []) ∧
    hasErrors (applyLoad (freshLoader ⟨Stability.publicPreview, true, testRegistry, []⟩)
      communityInput).2 = false ∧
    hasErrors (applyLoad (freshLoader ⟨Stability.undefined, true, testRegistry, []⟩)
      communityInput).2 = false := by
  refine ⟨?_, ?_, by decide, by decide⟩
  · intro l input d e hflag hd hkind hcomm
    have hgd : Diagnostic.mk Severity.error (communityMessage (dotted d.block.name))
        d.block.pos ∈ gateNode l.opts d := by
      unfold gateNode
      rw [hkind]
      simp [hcomm, hflag]
    have hmem : Diagnostic.mk Severity.error (communityMessage (dotted d.block.name))
        d.block.pos ∈ gateDiags l.opts input := by
      unfold gateDiags
      rw [List.mem_flatMap]
      exact ⟨d, hd, hgd⟩
    have hall : Diagnostic.mk Severity.error (communityMessage (dotted d.block.name))
        d.block.pos ∈ applyAllDiags l.opts input := by
      unfold applyAllDiags
      simp only [List.mem_append]
      tauto
    rw [applyLoad_diags]
    exact ⟨hasErrors_of_error_mem hall rfl, hall⟩
  · intro opts d e hflag hkind hcomm
    unfold gateNode
    rw [hkind]
    simp [hcomm, hflag]

/-- C7 witness: the disabled-flag rejection instantiated on the community
test input, and the enabled-flag bypass instantiated under the undefined
minimum stability. -/
theorem claim_C7_witness :
    (hasErrors (applyLoad (freshLoader testOptions) communityInput).2 = true ∧
      Diagnostic.mk Severity.error
        ("the component \"" ++ dotted ["testcomponents", "community"] ++
          "\" is a community component. Use the " ++
          "--feature.community-components.enabled command-line flag to enable community components")
        ⟨"TestLoader", 2, 4⟩ ∈ (applyLoad (freshLoader testOptions) communityInput).2) ∧
    gateNode ⟨Stability.undefined, true, testRegistry, []⟩
      ⟨"testcomponents.community.com",
        NodeKind.component ⟨["testcomponents", "community"], Stability.experimental, true⟩,
        ⟨["testcomponents", "community"], some "com", Body.nil, ⟨"TestLoader", 2, 4⟩⟩⟩ = [] := by
  constructor
  · exact claim_C7_community_gate.1 (freshLoader testOptions) communityInput
      ⟨"testcomponents.community.com",
        NodeKind.component ⟨["testcomponents", "community"], Stability.experimental, true⟩,
        ⟨["testcomponents", "community"], some "com", Body.nil, ⟨"TestLoader", 2, 4⟩⟩⟩
      ⟨["testcomponents", "community"], Stability.experimental, true⟩
      (by decide) (by decide) (by decide) (by decide)
  · exact claim_C7_community_gate.2.1 ⟨Stability.undefined, true, testRegistry, []⟩
      ⟨"testcomponents.community.com",
        NodeKind.component ⟨["testcomponents", "community"], Stability.experimental, true⟩,
        ⟨["testcomponents", "community"], some "com", Body.nil, ⟨"TestLoader", 2, 4⟩⟩⟩
      ⟨["testcomponents", "community"], Stability.experimental, true⟩
      (by decide) (by decide) (by decide)

/-- C8: under minimum stability public-preview, a foreach block in the table
is rejected as an experimental node, with the verbatim diagnostic including
the appended experimental hint, and the apply fails. -/
theorem claim_C8_foreach_gated_experimental (l : Loader) (input : ApplyOptions)
    (d : Descriptor) (hmin : l.opts.minStability = Stability.publicPreview)
    (hd : d ∈ tableDescs l.opts input) (hkind : d.kind = NodeKind.foreachBlock)
    (hname : d.block.name = ["foreach"]) :
    hasErrors (applyLoad l input).2 = true ∧
    Diagnostic.mk Severity.error
      ("config block \"foreach\" is at stability level \"experimental\", which is below " ++
        "the minimum allowed stability level \"public-preview\". " ++
        "Use --stability.level command-line flag to enable \"experimental\"")
      d.block.pos ∈ (applyLoad l input).2 := by
  have hmsg : belowMinMessage "config block" (dotted d.block.name) Stability.experimental
      Stability.publicPreview =
      ("config block \"foreach\" is at stability level \"experimental\", which is below " ++
        "the minimum allowed stability level \"public-preview\". " ++
        "Use --stability.level command-line flag to enable \"experimental\"") := by
    rw [hname]
    set_option maxRecDepth 8192 in decide
  have hgd : Diagnostic.mk Severity.error
      (belowMinMessage "config block" (dotted d.block.name) Stability.experimental
        Stability.publicPreview) d.block.pos ∈ gateNode l.opts d := by
    have hgate : gateNode l.opts d =
        [⟨Severity.error, belowMinMessage "config block" (dotted d.block.name)
            Stability.experimental Stability.publicPreview, d.block.pos⟩] := by
      unfold gateNode
      rw [hkind]
      show stabilityDiags l.opts "config block" (dotted d.block.name)
        Stability.experimental d.block.pos = _
      unfold stabilityDiags
      rw [hmin]
      rfl
    rw [hgate]
    simp
  rw [hmsg] at hgd
  have hall : Diagnostic.mk Severity.error
      ("config block \"foreach\" is at stability level \"experimental\", which is below " ++
        "the minimum allowed stability level \"public-preview\". " ++
        "Use --stability.level command-line flag to enable \"experimental\"")
      d.block.pos ∈ applyAllDiags l.opts input := by
    unfold applyAllDiags
    simp only [List.mem_append]
    refine Or.inl (Or.inl (Or.inr ?_))
    unfold gateDiags
    rw [List.mem_flatMap]
    exact ⟨d, hd, hgd⟩
  rw [applyLoad_diags]
  exact ⟨hasErrors_of_error_mem hall rfl, hall⟩

/-- C8 witness: the concrete foreach "a" block (collection, var, template)
under the default public-preview loader. -/
theorem claim_C8_witness :
    hasErrors (applyLoad (freshLoader testOptions) foreachInput).2 = true ∧
    Diagnostic.mk Severity.error
      ("config block \"foreach\" is at stability level \"experimental\", which is below " ++
        "the minimum allowed stability level \"public-preview\". " ++
        "Use --stability.level command-line flag to enable \"experimental\"")
      ⟨"TestLoader", 2, 4⟩ ∈ (applyLoad (freshLoader testOptions) foreachInput).2 := by
  exact claim_C8_foreach_gated_experimental (freshLoader testOptions) foreachInput
    ⟨"foreach.a", NodeKind.foreachBlock, foreachBlockA⟩
    (by decide) (by decide) (by decide) (by decide)

/-- C9 counterexample: in the partial-load input, the dotted identifier path
testcomponents.tick.doesnotexist.tick_time begins with no node id of the
symbol table (no prefix of it resolves), yet the apply does produce an
unresolved-reference error, contradicting the claim that such a path is not
treated as a node reference and produces no unresolved-reference error. -/
theorem claim_C9_counterexample :
    resolveRef (applyIds testOptions invalidRefInput)
      ["testcomponents", "tick", "doesnotexist", "tick_time"] = none ∧
    Diagnostic.mk Severity.error
      (unresolvedMessage ["testcomponents", "tick", "doesnotexist", "tick_time"])
      ⟨"TestLoader", 10, 4⟩ ∈ (applyLoad (freshLoader testOptions) invalidRefInput).2 ∧
    hasErrors (applyLoad (freshLoader testOptions) invalidRefInput).2 = true := by
  exact ⟨by decide, by decide, by decide⟩

/-- C9 amended: applying a component whose attribute expression calls a
standard-library function through a dotted identifier path succeeds with no
diagnostics: a dotted path whose first identifier is not a known namespace
root (such as the stdlib module string) is not inspected by the dependency
analyzer, so it produces neither an unresolved-reference error nor a
dependency edge. -/
theorem claim_C9_amended (b : Block) (roots : List String) (p : List String) (r : String)
    (hhead : p.head? = some r) (hr : roots.contains r = false) :
    p ∉ candidatePaths roots b ∧
    (applyLoad (freshLoader testOptions) stdlibInput).2 = [] ∧
    (applyLoad (freshLoader testOptions) stdlibInput).1.graph.edges = [] := by
  refine ⟨?_, by decide, by decide⟩
  intro hp
  unfold candidatePaths at hp
  rw [List.mem_filter] at hp
  have hc := hp.2
  unfold isCandidate at hc
  rw [hhead] at hc
  have hc2 : roots.contains r = true := hc
  rw [hr] at hc2
  cases hc2

/-- C9 amended witness: the string.join path is skipped under the test
registry roots, and the stdlib apply succeeds with no diagnostics and no
edges. -/
theorem claim_C9_amended_witness :
    (["string", "join"] ∉ candidatePaths (knownRoots testOptions)
      ⟨["testcomponents", "tick"], some "default",
        body1 "frequency" (Expr.call ["string", "join"]
          (Expr.seqCons
            (Expr.arr (Expr.seqCons (Expr.lit "1") (Expr.seqCons (Expr.lit "s") Expr.seqNil)))
            (Expr.seqCons (Expr.lit "") Expr.seqNil))),
        ⟨"TestLoader", 2, 4⟩⟩) ∧
    (applyLoad (freshLoader testOptions) stdlibInput).2 = [] ∧
    (applyLoad (freshLoader testOptions) stdlibInput).1.graph.edges = [] := by
  exact claim_C9_amended _ (knownRoots testOptions) ["string", "join"] "string"
    (by decide) (by decide)

/-- C4: any apply whose classified blocks declare two blocks with the same id
(component, config, or declare) fails, with a diagnostic of the verbatim form
block id already declared at sourceName:line:col citing the source position
of the prior declaration; the loader state is arbitrary, so the identical
diagnostic is produced on a fresh apply after a previously successful apply. -/
theorem claim_C4_duplicate_id_rejected (l : Loader) (input : ApplyOptions)
    (i : String) (d0 : Descriptor)
    (hfirst : (classifiedDescs l.opts input).find? (fun d => d.id == i) = some d0)
    (hcount : 2 ≤ (classifiedDescs l.opts input).countP (fun d => d.id == i)) :
    hasErrors (applyLoad l input).2 = true ∧
    ∃ p, Diagnostic.mk Severity.error
      ("block " ++ i ++ " already declared at " ++
        (d0.block.pos.sourceName ++ ":" ++ toString d0.block.pos.line ++ ":" ++
          toString d0.block.pos.col)) p ∈ (applyLoad l input).2 := by
  obtain ⟨p, hp⟩ := @buildTableAux_dup_later (classifiedDescs l.opts input) i d0 [] rfl hfirst hcount
  have hdup : Diagnostic.mk Severity.error (dupMessage i d0.block.pos) p
      ∈ dupDiags l.opts input := hp
  have hall : Diagnostic.mk Severity.error (dupMessage i d0.block.pos) p
      ∈ applyAllDiags l.opts input := by
    unfold applyAllDiags
    simp only [List.mem_append]
    tauto
  rw [applyLoad_diags]
  exact ⟨hasErrors_of_error_mem hall rfl, p, hall⟩

/-- C4 witness: after a successful apply of a single logging block, a fresh
apply declaring logging twice is rejected with the verbatim duplicate
diagnostic citing the position of the first declaration. -/
theorem claim_C4_witness :
    hasErrors (applyLoad (applyLoad (freshLoader testOptions) singleLoggingInput).1
      dupConfigInput).2 = true ∧
    ∃ p, Diagnostic.mk Severity.error
      ("block " ++ "logging" ++ " already declared at " ++
        ("TestLoader/Config_block_redefined" ++ ":" ++ toString (2 : Nat) ++ ":" ++
          toString (4 : Nat))) p
      ∈ (applyLoad (applyLoad (freshLoader testOptions) singleLoggingInput).1
          dupConfigInput).2 := by
  exact claim_C4_duplicate_id_rejected _ dupConfigInput "logging"
    ⟨"logging", NodeKind.config, loggingAt "TestLoader/Config_block_redefined" 2⟩
    (by decide) (by decide)

/-- C3: after a successful apply, the number of entries for a source id in a
target node's data-flow consumer list equals the number of occurrences of
references from that source to that target (one entry per occurrence, so two
references contribute two entries), and the lists are rebuilt on each apply,
so applying the same input again yields exactly the same consumer lists. -/
theorem claim_C3_dataflow_multiplicity_and_reset (l : Loader) (input : ApplyOptions)
    (h : hasErrors (applyLoad l input).2 = false) :
    (∀ t s n, (applyLoad l input).1.graph.getByID t = some n →
      n.dataFlowEdgesTo.count s = specConsumerCount l.opts input s t) ∧
    (∀ t n n2, (applyLoad l input).1.graph.getByID t = some n →
      (applyLoad (applyLoad l input).1 input).1.graph.getByID t = some n2 →
      n2.dataFlowEdgesTo = n.dataFlowEdgesTo) := by
  rw [applyLoad_diags] at h
  have hpub := applyLoad_publish h
  constructor
  · intro t s n hget
    rw [hpub] at hget
    have hfind : (applyNodes l.graph l.nextHandle l.opts input).find?
        (fun x => x.id == t) = some n := hget
    have hmem : n ∈ applyNodes l.graph l.nextHandle l.opts input :=
      List.mem_of_find?_eq_some hfind
    have hid : n.id = t := by simpa using List.find?_some hfind
    rw [applyNodes_dataFlow hmem, hid]
    rw [consumers_count (applyIds_nodup l.opts input)]
    rfl
  · intro t n n2 hget hget2
    have hopts : (applyLoad l input).1.opts = l.opts := applyLoad_opts l input
    have h02 : hasErrors (applyAllDiags (applyLoad l input).1.opts input) = false := by
      rw [hopts]
      exact h
    have hpub2 := applyLoad_publish h02
    rw [hpub] at hget
    rw [hpub2] at hget2
    have hfind : (applyNodes l.graph l.nextHandle l.opts input).find?
        (fun x => x.id == t) = some n := hget
    have hfind2 : (applyNodes (applyLoad l input).1.graph (applyLoad l input).1.nextHandle
        (applyLoad l input).1.opts input).find? (fun x => x.id == t) = some n2 := hget2
    have hid : n.id = t := by simpa using List.find?_some hfind
    have hid2 : n2.id = t := by simpa using List.find?_some hfind2
    have hdf := applyNodes_dataFlow (List.mem_of_find?_eq_some hfind)
    have hdf2 := applyNodes_dataFlow (List.mem_of_find?_eq_some hfind2)
    rw [hopts] at hdf2
    rw [hdf, hdf2, hid, hid2]

/-- C3 witness: in the data-flow scenario the expression of pass references
one twice, so one's consumer list holds two entries for pass, and a second
apply of the same input leaves the consumer list unchanged. -/
theorem claim_C3_witness :
    ((applyLoad (freshLoader testOptions) dataFlowInput).1.graph.getByID
        "testcomponents.passthrough.one").map
      (fun n => n.dataFlowEdgesTo.count "testcomponents.passthrough.pass") =
      some (specConsumerCount testOptions dataFlowInput "testcomponents.passthrough.pass"
        "testcomponents.passthrough.one") ∧
    specConsumerCount testOptions dataFlowInput "testcomponents.passthrough.pass"
      "testcomponents.passthrough.one" = 2 ∧
    ((applyLoad (applyLoad (freshLoader testOptions) dataFlowInput).1
        dataFlowInput).1.graph.getByID "testcomponents.passthrough.one").map
      Node.dataFlowEdgesTo =
      ((applyLoad (freshLoader testOptions) dataFlowInput).1.graph.getByID
        "testcomponents.passthrough.one").map Node.dataFlowEdgesTo := by
  have H := claim_C3_dataflow_multiplicity_and_reset (freshLoader testOptions)
    dataFlowInput (by decide)
  refine ⟨?_, by decide, ?_⟩
  · cases hget : (applyLoad (freshLoader testOptions) dataFlowInput).1.graph.getByID
        "testcomponents.passthrough.one" with
    | none => exact absurd hget (by decide)
    | some n =>
      show some (n.dataFlowEdgesTo.count "testcomponents.passthrough.pass") = _
      exact congrArg some (H.1 _ _ n hget)
  · cases hget : (applyLoad (freshLoader testOptions) dataFlowInput).1.graph.getByID
        "testcomponents.passthrough.one" with
    | none => exact absurd hget (by decide)
    | some n =>
      cases hget2 : (applyLoad (applyLoad (freshLoader testOptions) dataFlowInput).1
          dataFlowInput).1.graph.getByID "testcomponents.passthrough.one" with
      | none => exact absurd hget2 (by decide)
      | some n2 =>
        show some n2.dataFlowEdgesTo = some n.dataFlowEdgesTo
        exact congrArg some (H.2 _ n n2 hget hget2)

/-- C2: for a second successful apply on the same loader, a descriptor whose
id and raw block body are unchanged from a node of the previously published
graph yields a node with the same runtime handle (runtime identity is
retained), and every id absent from the new input's kept descriptors is
absent from the published graph. -/
theorem claim_C2_reload_keeps_handles_retires_stale (l0 : Loader)
    (in1 in2 : ApplyOptions)
    (h1 : hasErrors (applyLoad l0 in1).2 = false)
    (h2 : hasErrors (applyLoad (applyLoad l0 in1).1 in2).2 = false) :
    (∀ d ∈ keptDescs l0.opts in2, ∀ n1,
      (applyLoad l0 in1).1.graph.getByID d.id = some n1 →
      n1.block.body = d.block.body →
      ∃ n2, (applyLoad (applyLoad l0 in1).1 in2).1.graph.getByID d.id = some n2 ∧
        n2.handle = n1.handle) ∧
    (∀ i, i ∉ applyIds l0.opts in2 →
      (applyLoad (applyLoad l0 in1).1 in2).1.graph.getByID i = none) := by
  have hopts : (applyLoad l0 in1).1.opts = l0.opts := applyLoad_opts l0 in1
  rw [applyLoad_diags, hopts] at h2
  constructor
  · intro d hd n1 hget hbody
    have hd2 : d ∈ keptDescs (applyLoad l0 in1).1.opts in2 := by
      rw [hopts]
      exact hd
    obtain ⟨n2, hn2, _, _, _, hh⟩ := getByID_publish (applyLoad l0 in1).1 in2
      (by rw [hopts]; exact h2) hd2
    exact ⟨n2, hn2, hh n1 hget hbody⟩
  · intro i hi
    refine getByID_publish_none (applyLoad l0 in1).1 in2
      (by rw [hopts]; exact h2) ?_
    rw [hopts]
    exact hi

/-- C2 witness: reloading from the start file to the main file keeps the
runtime handle of testcomponents.tick.ticker (handle 0) and drops
testcomponents.tick.remove_me from the published graph. -/
theorem claim_C2_witness :
    (∃ n2, (applyLoad (applyLoad (freshLoader testOptions) removeMeInput).1
        mainInput).1.graph.getByID "testcomponents.tick.ticker" = some n2 ∧
      n2.handle = 0) ∧
    (applyLoad (applyLoad (freshLoader testOptions) removeMeInput).1
      mainInput).1.graph.getByID "testcomponents.tick.remove_me" = none := by
  have H := claim_C2_reload_keeps_handles_retires_stale (freshLoader testOptions)
    removeMeInput mainInput (by decide) (by decide)
  constructor
  · exact H.1 ⟨"testcomponents.tick.ticker",
      NodeKind.component ⟨["testcomponents", "tick"], Stability.publicPreview, false⟩,
      tickTicker⟩ (by decide)
      ⟨"testcomponents.tick.ticker",
        NodeKind.component ⟨["testcomponents", "tick"], Stability.publicPreview, false⟩,
        tickTicker, 0, []⟩ (by decide) (by decide)
  · exact H.2 "testcomponents.tick.remove_me" (by decide)

/-- C10: after every successful apply, data-flow consumer lists point in the
direction of data flow, opposite to dependency edges: for every dependency
edge u to v in the published graph, u appears in the data-flow consumer list
of the node with id v, and a node referenced by no kept node's candidate
paths has an empty consumer list. -/
theorem claim_C10_dataflow_opposite_to_edges (l : Loader) (input : ApplyOptions)
    (h : hasErrors (applyLoad l input).2 = false) :
    (∀ u v, (u, v) ∈ (applyLoad l input).1.graph.edges →
      ∃ n, (applyLoad l input).1.graph.getByID v = some n ∧ u ∈ n.dataFlowEdgesTo) ∧
    (∀ n ∈ (applyLoad l input).1.graph.nodes,
      (∀ d ∈ keptDescs l.opts input, ∀ p ∈ candidatePaths (knownRoots l.opts) d.block,
        resolveRef (applyIds l.opts input) p ≠ some n.id) →
      n.dataFlowEdgesTo = []) := by
  rw [applyLoad_diags] at h
  have hpub := applyLoad_publish h
  constructor
  · intro u v he
    rw [hpub] at he
    obtain ⟨d, hd, hu, p, hp, hres⟩ := mem_applyEdges he
    have hv : v ∈ applyIds l.opts input := resolveRef_mem hres
    have hd2 : ∃ d2 ∈ keptDescs l.opts input, d2.id = v := by
      unfold applyIds at hv
      rw [List.mem_map] at hv
      obtain ⟨d2, hd2, hd2i⟩ := hv
      exact ⟨d2, hd2, hd2i⟩
    obtain ⟨d2, hd2, hd2i⟩ := hd2
    obtain ⟨n, hn, _, _, hndf, _⟩ := getByID_publish l input h hd2
    rw [hd2i] at hn hndf
    refine ⟨n, hn, ?_⟩
    rw [hndf]
    exact hu ▸ consumers_intro hd hp hres
  · intro n hn hno
    rw [hpub] at hn
    have hdf := applyNodes_dataFlow hn
    rw [hdf, List.eq_nil_iff_forall_not_mem]
    intro x hx
    obtain ⟨d, hd, hxd, p, hp, hres⟩ := mem_consumers hx
    exact hno d hd p hp hres

/-- C10 witness: in the data-flow scenario the edge from sum to pass is
mirrored by sum appearing in pass's consumer list, and sum, referenced by
nobody, has an empty consumer list. -/
theorem claim_C10_witness :
    (∃ n, (applyLoad (freshLoader testOptions) dataFlowInput).1.graph.getByID
        "testcomponents.passthrough.pass" = some n ∧
      "testcomponents.summation.sum" ∈ n.dataFlowEdgesTo) ∧
    ((applyLoad (freshLoader testOptions) dataFlowInput).1.graph.getByID
        "testcomponents.summation.sum").map Node.dataFlowEdgesTo = some [] := by
  have H := claim_C10_dataflow_opposite_to_edges (freshLoader testOptions)
    dataFlowInput (by decide)
  constructor
  · exact H.1 "testcomponents.summation.sum" "testcomponents.passthrough.pass" (by decide)
  · cases hget : (applyLoad (freshLoader testOptions) dataFlowInput).1.graph.getByID
        "testcomponents.summation.sum" with
    | none => exact absurd hget (by decide)
    | some n =>
      have hmem : n ∈ (applyLoad (freshLoader testOptions) dataFlowInput).1.graph.nodes :=
        List.mem_of_find?_eq_some hget
      have hid : n.id = "testcomponents.summation.sum" := by
        simpa using List.find?_some hget
      show some n.dataFlowEdgesTo = some []
      refine congrArg some (H.2 n hmem ?_)
      rw [hid]
      decide

theorem descEdges_no_candidates {ids roots : List String} {d : Descriptor}
    (h : candidatePaths roots d.block = []) : descEdges ids roots d = [] := by
  unfold descEdges
  rw [h]
  rfl

theorem kept_shape {opts : LoaderOptions} {comps decls cs : List Block}
    (hcs : ∀ b ∈ injectDefaults cs, b.name = ["logging"] ∨ b.name = ["tracing"])
    (hok : hasErrors (applyAllDiags opts ⟨comps, cs, decls⟩) = false) :
    keptDescs opts ⟨comps, cs, decls⟩ =
      (comps.map (classifyComponent opts)).filterMap Except.toOption
      ++ (injectDefaults cs).map
            (fun b => (⟨dotted b.name, NodeKind.config, b⟩ : Descriptor))
      ++ (decls.map classifyDeclare).filterMap Except.toOption := by
  rw [keptDescs_eq_table_of_success hok, table_eq_classified_of_success hok]
  have hred : classifiedDescs opts ⟨comps, cs, decls⟩ =
      (comps.map (classifyComponent opts)
        ++ (injectDefaults cs).map classifyConfig
        ++ decls.map classifyDeclare).filterMap Except.toOption := by
    unfold classifiedDescs classifyResults
    rfl
  rw [hred, List.filterMap_append, List.filterMap_append,
    filterMap_toOption_map_ok (fun b hb => classifyConfig_ok (hcs b hb))]

/-- Shape stability of two successful applies that differ only in which of
the singleton config blocks are supplied: the registered ids are a
permutation of each other and the dependency edges are equal. -/
theorem shape_stable_aux {opts : LoaderOptions} {comps decls cs1 cs2 : List Block}
    (hcs1 : ∀ b ∈ injectDefaults cs1, (b.name = ["logging"] ∨ b.name = ["tracing"]) ∧
      candidatePaths (knownRoots opts) b = [])
    (hcs2 : ∀ b ∈ injectDefaults cs2, (b.name = ["logging"] ∨ b.name = ["tracing"]) ∧
      candidatePaths (knownRoots opts) b = [])
    (hperm : List.Perm ((injectDefaults cs1).map Block.name)
      ((injectDefaults cs2).map Block.name))
    (hok1 : hasErrors (applyAllDiags opts ⟨comps, cs1, decls⟩) = false)
    (hok2 : hasErrors (applyAllDiags opts ⟨comps, cs2, decls⟩) = false) :
    List.Perm (applyIds opts ⟨comps, cs1, decls⟩) (applyIds opts ⟨comps, cs2, decls⟩) ∧
    applyEdges opts ⟨comps, cs1, decls⟩ = applyEdges opts ⟨comps, cs2, decls⟩ := by
  have hk1 := kept_shape (fun b hb => (hcs1 b hb).1) hok1
  have hk2 := kept_shape (fun b hb => (hcs2 b hb).1) hok2
  have hids1 : applyIds opts ⟨comps, cs1, decls⟩ =
      ((comps.map (classifyComponent opts)).filterMap Except.toOption).map Descriptor.id
      ++ (injectDefaults cs1).map (fun b => dotted b.name)
      ++ ((decls.map classifyDeclare).filterMap Except.toOption).map Descriptor.id := by
    unfold applyIds
    rw [hk1, List.map_append, List.map_append, List.map_map]
    rfl
  have hids2 : applyIds opts ⟨comps, cs2, decls⟩ =
      ((comps.map (classifyComponent opts)).filterMap Except.toOption).map Descriptor.id
      ++ (injectDefaults cs2).map (fun b => dotted b.name)
      ++ ((decls.map classifyDeclare).filterMap Except.toOption).map Descriptor.id := by
    unfold applyIds
    rw [hk2, List.map_append, List.map_append, List.map_map]
    rfl
  have hmid : List.Perm ((injectDefaults cs1).map (fun b => dotted b.name))
      ((injectDefaults cs2).map (fun b => dotted b.name)) := by
    have hm := List.Perm.map dotted hperm
    rw [List.map_map, List.map_map] at hm
    exact hm
  have hpermIds : List.Perm (applyIds opts ⟨comps, cs1, decls⟩)
      (applyIds opts ⟨comps, cs2, decls⟩) := by
    rw [hids1, hids2]
    exact List.Perm.append_right _ (List.Perm.append_left _ hmid)
  refine ⟨hpermIds, ?_⟩
  unfold applyEdges
  congr 1
  rw [hk1, hk2, List.flatMap_append, List.flatMap_append, List.flatMap_append,
    List.flatMap_append]
  have hcfg1 : ((injectDefaults cs1).map
      (fun b => (⟨dotted b.name, NodeKind.config, b⟩ : Descriptor))).flatMap
      (descEdges (applyIds opts ⟨comps, cs1, decls⟩) (knownRoots opts)) = [] := by
    rw [List.flatMap_eq_nil_iff]
    intro d hd
    rw [List.mem_map] at hd
    obtain ⟨b, hb, rfl⟩ := hd
    exact descEdges_no_candidates ((hcs1 b hb).2)
  have hcfg2 : ((injectDefaults cs2).map
      (fun b => (⟨dotted b.name, NodeKind.config, b⟩ : Descriptor))).flatMap
      (descEdges (applyIds opts ⟨comps, cs2, decls⟩) (knownRoots opts)) = [] := by
    rw [List.flatMap_eq_nil_iff]
    intro d hd
    rw [List.mem_map] at hd
    obtain ⟨b, hb, rfl⟩ := hd
    exact descEdges_no_candidates ((hcs2 b hb).2)
  rw [hcfg1, hcfg2]
  rw [List.flatMap_congr (fun d _ => descEdges_perm hpermIds),
    List.flatMap_congr (l := (decls.map classifyDeclare).filterMap Except.toOption)
      (fun d _ => descEdges_perm hpermIds)]

/-- C6: for every successful apply the singleton config ids logging and
tracing appear in the published graph whether or not the caller supplied
them (the loader injects defaults, including re-injection when a previously
supplied one is removed on a reload), and two successive successful applies
sharing component and declare blocks, whose config blocks are singleton
logging or tracing blocks with reference-free bodies declaring the same id
set after injection, publish graphs of identical shape: the node id sets are
permutations of each other and the edge lists are equal. -/
theorem claim_C6_default_injection_and_shape (l : Loader) (input : ApplyOptions)
    (h : hasErrors (applyLoad l input).2 = false)
    (l0 : Loader) (comps decls cs1 cs2 : List Block)
    (hcs1 : ∀ b ∈ injectDefaults cs1, (b.name = ["logging"] ∨ b.name = ["tracing"]) ∧
      candidatePaths (knownRoots l0.opts) b = [])
    (hcs2 : ∀ b ∈ injectDefaults cs2, (b.name = ["logging"] ∨ b.name = ["tracing"]) ∧
      candidatePaths (knownRoots l0.opts) b = [])
    (hperm : List.Perm ((injectDefaults cs1).map Block.name)
      ((injectDefaults cs2).map Block.name))
    (h1 : hasErrors (applyLoad l0 ⟨comps, cs1, decls⟩).2 = false)
    (h2 : hasErrors (applyLoad (applyLoad l0 ⟨comps, cs1, decls⟩).1
      ⟨comps, cs2, decls⟩).2 = false) :
    ((applyLoad l input).1.graph.getByID "logging").isSome = true ∧
    ((applyLoad l input).1.graph.getByID "tracing").isSome = true ∧
    List.Perm
      ((applyLoad (applyLoad l0 ⟨comps, cs1, decls⟩).1
        ⟨comps, cs2, decls⟩).1.graph.nodes.map Node.id)
      ((applyLoad l0 ⟨comps, cs1, decls⟩).1.graph.nodes.map Node.id) ∧
    (applyLoad (applyLoad l0 ⟨comps, cs1, decls⟩).1 ⟨comps, cs2, decls⟩).1.graph.edges =
      (applyLoad l0 ⟨comps, cs1, decls⟩).1.graph.edges := by
  rw [applyLoad_diags] at h
  have hpub := applyLoad_publish h
  have hlogS : ((applyLoad l input).1.graph.getByID "logging").isSome = true := by
    obtain ⟨b, hb, hbn⟩ := injectDefaults_has_logging input.configBlocks
    have hm : dotted b.name ∈ applyIds l.opts input := applyIds_has_config h hb (Or.inl hbn)
    rw [hbn] at hm
    rw [hpub]
    show ((applyNodes l.graph l.nextHandle l.opts input).find?
      (fun n => n.id == "logging")).isSome = true
    rw [List.find?_isSome]
    have hm2 : "logging" ∈ (applyNodes l.graph l.nextHandle l.opts input).map Node.id := by
      rw [applyNodes_ids]
      exact hm
    rw [List.mem_map] at hm2
    obtain ⟨x, hx, hxi⟩ := hm2
    exact ⟨x, hx, by simp [hxi]⟩
  have htrcS : ((applyLoad l input).1.graph.getByID "tracing").isSome = true := by
    obtain ⟨b, hb, hbn⟩ := injectDefaults_has_tracing input.configBlocks
    have hm : dotted b.name ∈ applyIds l.opts input := applyIds_has_config h hb (Or.inr hbn)
    rw [hbn] at hm
    rw [hpub]
    show ((applyNodes l.graph l.nextHandle l.opts input).find?
      (fun n => n.id == "tracing")).isSome = true
    rw [List.find?_isSome]
    have hm2 : "tracing" ∈ (applyNodes l.graph l.nextHandle l.opts input).map Node.id := by
      rw [applyNodes_ids]
      exact hm
    rw [List.mem_map] at hm2
    obtain ⟨x, hx, hxi⟩ := hm2
    exact ⟨x, hx, by simp [hxi]⟩
  have hopts : (applyLoad l0 ⟨comps, cs1, decls⟩).1.opts = l0.opts :=
    applyLoad_opts _ _
  rw [applyLoad_diags] at h1 h2
  rw [hopts] at h2
  have haux := shape_stable_aux hcs1 hcs2 hperm h1 h2
  have hpub1 := applyLoad_publish h1
  have h2' : hasErrors (applyAllDiags (applyLoad l0 ⟨comps, cs1, decls⟩).1.opts
      ⟨comps, cs2, decls⟩) = false := by
    rw [hopts]
    exact h2
  have hpub2 := applyLoad_publish h2'
  have hn1 : (applyLoad l0 ⟨comps, cs1, decls⟩).1.graph.nodes.map Node.id =
      applyIds l0.opts ⟨comps, cs1, decls⟩ := by
    rw [hpub1]
    show (applyNodes l0.graph l0.nextHandle l0.opts ⟨comps, cs1, decls⟩).map Node.id = _
    exact applyNodes_ids _ _ _ _
  have hn2 : (applyLoad (applyLoad l0 ⟨comps, cs1, decls⟩).1
      ⟨comps, cs2, decls⟩).1.graph.nodes.map Node.id =
      applyIds l0.opts ⟨comps, cs2, decls⟩ := by
    rw [hpub2]
    show (applyNodes (applyLoad l0 ⟨comps, cs1, decls⟩).1.graph
      (applyLoad l0 ⟨comps, cs1, decls⟩).1.nextHandle
      (applyLoad l0 ⟨comps, cs1, decls⟩).1.opts ⟨comps, cs2, decls⟩).map Node.id = _
    rw [applyNodes_ids, hopts]
  have he1 : (applyLoad l0 ⟨comps, cs1, decls⟩).1.graph.edges =
      applyEdges l0.opts ⟨comps, cs1, decls⟩ := by
    rw [hpub1]
  have he2 : (applyLoad (applyLoad l0 ⟨comps, cs1, decls⟩).1
      ⟨comps, cs2, decls⟩).1.graph.edges = applyEdges l0.opts ⟨comps, cs2, decls⟩ := by
    rw [hpub2]
    show applyEdges (applyLoad l0 ⟨comps, cs1, decls⟩).1.opts ⟨comps, cs2, decls⟩ = _
    rw [hopts]
  refine ⟨hlogS, htrcS, ?_, ?_⟩
  · rw [hn1, hn2]
    exact haux.1.symm
  · rw [he1, he2]
    exact haux.2.symm

/-- C6 witness: the happy-path apply has logging and tracing in its graph,
and reloading with the logging block removed (only an updated tracing block
supplied) publishes a graph of identical shape. -/
theorem claim_C6_witness :
    ((applyLoad (freshLoader testOptions) mainInput).1.graph.getByID
      "logging").isSome = true ∧
    ((applyLoad (freshLoader testOptions) mainInput).1.graph.getByID
      "tracing").isSome = true ∧
    List.Perm
      ((applyLoad (applyLoad (freshLoader testOptions) mainInput).1
        mainInputNewConfig).1.graph.nodes.map Node.id)
      ((applyLoad (freshLoader testOptions) mainInput).1.graph.nodes.map Node.id) ∧
    (applyLoad (applyLoad (freshLoader testOptions) mainInput).1
      mainInputNewConfig).1.graph.edges =
      (applyLoad (freshLoader testOptions) mainInput).1.graph.edges := by
  exact claim_C6_default_injection_and_shape (freshLoader testOptions) mainInput (by decide)
    (freshLoader testOptions) [tickTicker, passStatic, passTicker, passForwarded] []
    [loggingBlock, tracingBlock] [tracingBlock2]
    (by decide) (by decide) (by decide) (by decide) (by decide)

end Alloy
